import Mathlib

/-!
Verification of the t5-lumi pretraining pipeline: a shallow embedding of
`no_tokenize.py` (tokenizing ingest and shard writer) and `train.py`
(distributed training driver: epoch-length agreement, seeding, checkpoint
save/resume, epoch step accounting), with theorems settling the spec claims.
-/

/-- A document is an ordered sequence of token-id arrays (one per source line),
as built by `Processor.load_and_tokenize` in `no_tokenize.py`. -/
abbrev Doc := List (List Nat)

/-- Elements of a list at positions 0, N, 2N, …: the stride part of a Python
extended slice `l[::N]`. -/
def everyNth (N : Nat) : List α → List α
  | [] => []
  | x :: xs => x :: everyNth N (xs.drop (N - 1))
termination_by l => l.length
decreasing_by
  simp only [List.length_drop, List.length_cons]
  omega

/-- Python slice `l[i::N]`: elements at positions i, i+N, i+2N, …
(`self.documents[i::8]` in `Processor.save`). -/
def pySlice (l : List α) (i N : Nat) : List α := everyNth N (l.drop i)

/-- `Processor.save` (no_tokenize.py lines 46-49): for i in range(8), write
`documents[i::8]` to the artifact named by index `RANK * 8 + i`. The result
lists each artifact as (name index, contents). -/
def processorSave (rank : Nat) (docs : List Doc) : List (Nat × List Doc) :=
  (List.range 8).map (fun i => (rank * 8 + i, pySlice docs i 8))

/-- Append one token array to the last (current) document, as
`self.documents[-1].append(np.array(tokens))` in no_tokenize.py line 39. -/
def appendToLast (docs : List Doc) (arr : List Nat) : List Doc :=
  match docs with
  | [] => []
  | [d] => [d ++ [arr]]
  | d :: rest => d :: appendToLast rest arr

/-- Python `str.strip()` (no_tokenize.py line 30): remove leading and
trailing whitespace. -/
def pyStrip (s : String) : String :=
  String.mk (((s.data.dropWhile Char.isWhitespace).reverse.dropWhile
    Char.isWhitespace).reverse)

/-- One iteration of the line loop of `Processor.load_and_tokenize`
(no_tokenize.py lines 29-40): strip the line; a blank line seals the current
document and starts a new empty one; otherwise tokenize it (the tokenizer is
the external collaborator, modelled as a function from the stripped line to a
token-id list, invoked without model-specific special tokens and on raw text)
and append the token array to the current document when it is non-empty. -/
def processLine (tok : String → List Nat) (docs : List Doc) (line : String) :
    List Doc :=
  let stripped := pyStrip line
  if stripped = "" then docs ++ [[]]
  else
    let tokens := tok stripped
    if 0 < tokens.length then appendToLast docs tokens else docs

/-- The line loop folded over one input file's lines. -/
def ingestFold (tok : String → List Nat) (docs : List Doc)
    (lines : List String) : List Doc :=
  lines.foldl (processLine tok) docs

/-- `Processor.load_and_tokenize` (no_tokenize.py lines 23-43): start from one
empty document, process the NCC file's lines and then the C4 file's lines with
the same accumulator, and finally drop every empty document. -/
def load_and_tokenize (tok : String → List Nat) (ncc c4 : List String) :
    List Doc :=
  (ingestFold tok (ingestFold tok [[]] ncc) c4).filter (fun d => 0 < d.length)

/-- Extending the current document by a whole run of token arrays. -/
def appendRun (docs : List Doc) (arrs : List (List Nat)) : List Doc :=
  arrs.foldl appendToLast docs

/-- Splitting a character list at every occurrence of a separator. -/
def splitOnChar (c : Char) : List Char → List (List Char)
  | [] => [[]]
  | x :: xs =>
    let r := splitOnChar c xs
    if x = c then [] :: r
    else
      match r with
      | [] => [[x]]
      | w :: ws => (x :: w) :: ws

/-- A concrete injective per-word id assignment for the spec's scenario. -/
def wordId (w : String) : Nat :=
  if w = "hello" then 0
  else if w = "world" then 1
  else if w = "foo" then 2
  else if w = "bar" then 3
  else 4

/-- The spec scenario's tokenizer: each space-separated word of a line is
mapped to its unique id. -/
def wordTok (s : String) : List Nat :=
  (splitOnChar ' ' s.data).map (fun w => wordId (String.mk w))

/-- One filesystem event of `Processor.save`: opening a path for writing
(`gzip.open(path, mode='wb')`, which creates or truncates the file at that
very path) or completing the serialized dump of a shard's documents into it. -/
inductive ShardFsOp where
  | openTrunc (path : String)
  | dump (path : String) (payload : List Doc)
deriving DecidableEq

/-- The path an event touches. -/
def pathOfOp : ShardFsOp → String
  | ShardFsOp.openTrunc p => p
  | ShardFsOp.dump p _ => p

/-- The sequence of filesystem events performed by `Processor.save`
(no_tokenize.py lines 46-49): for each i < 8, open the final output path
`output_path.format(rank * 8 + i)` for writing and then dump `documents[i::8]`
into it. No temporary path is used and nothing is renamed. -/
def processorSaveOps (rank : Nat) (tmpl : Nat → String) (docs : List Doc) :
    List ShardFsOp :=
  ((List.range 8).map (fun i =>
    [ShardFsOp.openTrunc (tmpl (rank * 8 + i)),
     ShardFsOp.dump (tmpl (rank * 8 + i)) (pySlice docs i 8)])).flatten

/-- Contents visible at each output path: an opened path holds a truncated
(empty) artifact until its dump completes. -/
def ShardFs := String → Option (List Doc)

/-- Effect of one event on the visible filesystem. -/
def applyShardOp (fs : ShardFs) : ShardFsOp → ShardFs
  | ShardFsOp.openTrunc p => fun q => if q = p then some [] else fs q
  | ShardFsOp.dump p d => fun q => if q = p then some d else fs q

/-- Effect of a sequence of events. -/
def applyShardOps (fs : ShardFs) (ops : List ShardFsOp) : ShardFs :=
  ops.foldl applyShardOp fs

/-- The output directory before `Processor.save` runs. -/
def emptyShardFs : ShardFs := fun _ => none

/-- Number of full batches a shard of `len` examples yields at batch size
`bs` (`len(train_data) // batch_size` with `drop_last=True`). -/
def localBatches (len bs : Nat) : Nat := len / bs

/-- The per-rank value contributed to the all-reduce in `load_dataset`
(train.py line 285): `len(train_data) // batch_size // 16`. -/
def contributedLength (len bs : Nat) : Nat := len / bs / 16

/-- Blocking MIN all-reduce (train.py line 286): every rank receives the
global minimum of the per-rank values. -/
def allReduceMin : List Nat → Nat
  | [] => 0
  | x :: xs => xs.foldl min x

/-- The epoch-length agreement of `load_dataset` (train.py lines 284-288):
rank r contributes `len_r // batch_size // 16`, and the MIN all-reduce returns
the global minimum of those contributions to every rank. -/
def agree_on_epoch_length (lens : List Nat) (bs : Nat) : Nat :=
  allReduceMin (lens.map (fun L => contributedLength L bs))

/-- Per-rank-per-epoch shuffling seed (train.py line 204):
`args.seed + get_rank() + epoch * get_world_size()`. -/
def shuffleSeed (seed rank epoch world : Nat) : Nat :=
  seed + rank + epoch * world

/-- Local device index (train.py line 84):
`local_rank = rank - gpus_per_node * (rank // gpus_per_node)`. -/
def local_rank (rank gpus_per_node : Nat) : Nat :=
  rank - gpus_per_node * (rank / gpus_per_node)

/-- Association-list lookup for configuration dictionaries (first match). -/
def lookupA : List (String × α) → String → Option α
  | [], _ => none
  | (k, v) :: rest, key => if key = k then some v else lookupA rest key

/-- Python `dict` assignment of a single key: replace the stored value when
the key is present, else append the new binding. -/
def updateOne (d : List (String × α)) (kv : String × α) : List (String × α) :=
  if (d.map Prod.fst).contains kv.1 then
    d.map (fun p => if p.1 = kv.1 then kv else p)
  else d ++ [kv]

/-- Python `base.update(upd)`: apply every binding of `upd` to `base`.
Models `args.update(vars(checkpoint_args))` at train.py line 313. -/
def dictUpdate (base upd : List (String × α)) : List (String × α) :=
  upd.foldl updateOne base

/-- A checkpoint as written by train.py's `save`: epoch, global step and the
run configuration (the model/optimizer/scheduler/scaler state dicts are
external collaborators and stay outside the embedded state). -/
structure Checkpoint (α : Type) where
  epoch : Nat
  global_step : Nat
  cfgArgs : List (String × α)

/-- Resume protocol (train.py lines 309-314): `initial_epoch` is the saved
epoch plus one, the global step is the saved value, and the freshly parsed
configuration dictionary is overlaid with every field stored in the
checkpoint. -/
def resumeFrom (fresh : List (String × α)) (ck : Checkpoint α) :
    Nat × Nat × List (String × α) :=
  (ck.epoch + 1, ck.global_step, dictUpdate fresh ck.cfgArgs)

/-- The run directory's files, keyed by path. -/
def FsState (α : Type) := String → Option (Checkpoint α)

/-- Modelled from the spec: `is_main_process()` is imported from `utils`,
which is not among the shown sources; per the spec the checkpoint is written
by the single designated process, rank 0. -/
def is_main_process (rank : Nat) : Bool := rank == 0

/-- First half of `save` (train.py lines 256-257): if a checkpoint exists at
`checkpoint_path`, rename it aside to `checkpoint_path + "_tmp"`
(`os.rename`). -/
def renameAside (fs : FsState α) (path : String) : FsState α :=
  match fs path with
  | none => fs
  | some c => fun p =>
      if p = path ++ "_tmp" then some c
      else if p = path then none
      else fs p

/-- Second half of `save` (train.py lines 260-271): write the new checkpoint
at `checkpoint_path`. -/
def writeCheckpoint (fs : FsState α) (path : String) (c : Checkpoint α) :
    FsState α :=
  fun p => if p = path then some c else fs p

/-- `save` (train.py lines 253-273): only the main process touches the
filesystem; it renames any previous checkpoint aside and then writes the new
one at the fixed path. -/
def saveCheckpoint (rank : Nat) (fs : FsState α) (path : String)
    (c : Checkpoint α) : FsState α :=
  if is_main_process rank then writeCheckpoint (renameAside fs path) path c
  else fs

/-- The step loop of `training_epoch` (train.py lines 214-250), restricted to
step accounting: each dataloader batch runs one optimizer step
(`global_step += 1`), and the loop returns as soon as
`global_step >= args.device_max_steps` or `local_step >= max_local_steps - 1`
(Python integer arithmetic, so the `- 1` is over ℤ). Arguments after the two
bounds: remaining batches, `local_step`, `global_step`. -/
def runSteps (maxSteps maxLocalSteps : Nat) : Nat → Nat → Nat → Nat
  | 0, _, g => g
  | b + 1, localStep, g =>
    let g' := g + 1
    if maxSteps ≤ g' ∨ (maxLocalSteps : Int) - 1 ≤ (localStep : Int) then g'
    else runSteps maxSteps maxLocalSteps b (localStep + 1) g'

/-- `training_epoch`: run the step loop over this epoch's available batches,
starting from the current global step. -/
def training_epoch (global_step maxSteps maxLocalSteps batches : Nat) : Nat :=
  runSteps maxSteps maxLocalSteps batches 0 global_step

/-- The epoch loop of `__main__` (train.py lines 323-329): each iteration
loads a shard (yielding this epoch's agreed budget and batch count), runs
`training_epoch`, saves a checkpoint, and stops when the global step counter
has reached `device_max_steps`. `fuel` bounds the recursion; the trace records
the (global step, epoch) of each `save` call. -/
def driverLoop (maxSteps : Nat) (budget batches : Nat → Nat) :
    Nat → Nat → Nat → List (Nat × Nat) → Option (Nat × List (Nat × Nat))
  | 0, _, _, _ => none
  | fuel + 1, epoch, g, ckpts =>
    let g' := training_epoch g maxSteps (budget epoch) (batches epoch)
    let ckpts' := ckpts ++ [(g', epoch)]
    if maxSteps ≤ g' then some (g', ckpts')
    else driverLoop maxSteps budget batches fuel (epoch + 1) g' ckpts'

theorem everyNth_getElem? (N : Nat) (hN : 1 ≤ N) :
    ∀ (l : List α) (k : Nat), (everyNth N l)[k]? = l[N * k]? := by
  intro l
  induction l using everyNth.induct N with
  | case1 => intro k; simp [everyNth]
  | case2 x xs ih =>
    intro k
    match k with
    | 0 => simp [everyNth]
    | k + 1 =>
      rw [everyNth]
      have hidx : N * (k + 1) = (N - 1 + N * k) + 1 := by
        rw [Nat.mul_succ]; omega
      rw [hidx, List.getElem?_cons_succ, List.getElem?_cons_succ, ih k,
        List.getElem?_drop]

theorem pySlice_getElem? (l : List α) (i N k : Nat) (hN : 1 ≤ N) :
    (pySlice l i N)[k]? = l[i + N * k]? := by
  rw [pySlice, everyNth_getElem? N hN, List.getElem?_drop]

/-- C1: `Processor.save` partitions the (already empty-filtered) document list
round-robin with fan-out 8: artifact i is named `rank*8 + i` and holds exactly
the documents at positions i, i+8, i+16, … in order; reading shard j % 8 at
slot j / 8 recovers document j (so the union by index is exactly the input),
and distinct (shard, slot) pairs come from distinct source positions, so no
document is delivered twice. -/
theorem shard_writer_round_robin_partition (docs : List Doc) (rank : Nat) :
    ((processorSave rank docs).map Prod.fst
        = (List.range 8).map (fun i => rank * 8 + i))
    ∧ ((processorSave rank docs).map Prod.snd
        = (List.range 8).map (fun i => pySlice docs i 8))
    ∧ (∀ i, i < 8 → ∀ k, (pySlice docs i 8)[k]? = docs[i + 8 * k]?)
    ∧ (∀ j, (pySlice docs (j % 8) 8)[j / 8]? = docs[j]?)
    ∧ (∀ i1 k1 i2 k2, i1 < 8 → i2 < 8 →
        i1 + 8 * k1 = i2 + 8 * k2 → i1 = i2 ∧ k1 = k2) := by
  refine ⟨by simp [processorSave], by simp [processorSave], ?_, ?_, ?_⟩
  · intro i _ k
    exact pySlice_getElem? docs i 8 k (by norm_num)
  · intro j
    rw [pySlice_getElem? docs (j % 8) 8 (j / 8) (by norm_num),
      Nat.mod_add_div j 8]
  · intro i1 k1 i2 k2 h1 h2 heq
    omega

/-- Witness for C1 at a concrete input: shard 0 of a one-document list holds
document 0. -/
theorem shard_writer_round_robin_partition_witness :
    (0 : Nat) < 8 ∧
      (pySlice ([[[1]]] : List Doc) 0 8)[0]? = ([[[1]]] : List Doc)[0 + 8 * 0]? :=
  ⟨by decide, (shard_writer_round_robin_partition [[[1]]] 0).2.2.1 0 (by decide) 0⟩

theorem ingestFold_all_nonblank (tok : String → List Nat) :
    ∀ (lines : List String) (docs : List Doc),
      (∀ x ∈ lines, pyStrip x ≠ "" ∧ 0 < (tok (pyStrip x)).length) →
      ingestFold tok docs lines
        = appendRun docs (lines.map (fun x => tok (pyStrip x))) := by
  intro lines
  induction lines with
  | nil => intro docs _; rfl
  | cons x rest ih =>
    intro docs hx
    have hhead := hx x (List.mem_cons_self x rest)
    have hstep : processLine tok docs x = appendToLast docs (tok (pyStrip x)) := by
      rw [processLine]
      rw [if_neg hhead.1, if_pos hhead.2]
    show ingestFold tok (processLine tok docs x) rest = _
    rw [hstep, ih _ (fun y hy => hx y (List.mem_cons_of_mem x hy))]
    rfl

/-- C3: the ingest seals the current document at each stripped blank line,
appends each non-blank line's non-empty token array to the current document,
and drops zero-line documents at the end: no emitted document is empty, and
the spec's scenario (lines "hello world", blank, "foo", "bar", blank, with a
per-word tokenizer) yields exactly the documents [[tok hello, tok world]] and
[[tok foo], [tok bar]], the trailing empty document being dropped. -/
theorem ingest_document_boundaries :
    (∀ (tok : String → List Nat) (docs : List Doc) (line : String),
        pyStrip line = "" → processLine tok docs line = docs ++ [[]])
    ∧ (∀ (tok : String → List Nat) (docs : List Doc) (line : String),
        pyStrip line ≠ "" → 0 < (tok (pyStrip line)).length →
        processLine tok docs line = appendToLast docs (tok (pyStrip line)))
    ∧ (∀ (tok : String → List Nat) (docs : List Doc) (line : String),
        pyStrip line ≠ "" → (tok (pyStrip line)).length = 0 →
        processLine tok docs line = docs)
    ∧ (∀ (tok : String → List Nat) (ncc c4 : List String) (d : Doc),
        d ∈ load_and_tokenize tok ncc c4 → 0 < d.length)
    ∧ load_and_tokenize wordTok ["hello world", "", "foo", "bar", ""] []
        = [[[0, 1]], [[2], [3]]] := by
  refine ⟨?_, ?_, ?_, ?_, by decide⟩
  · intro tok docs line hblank
    rw [processLine, if_pos hblank]
  · intro tok docs line hblank htok
    rw [processLine, if_neg hblank, if_pos htok]
  · intro tok docs line hblank htok
    rw [processLine, if_neg hblank, if_neg (by omega)]
  · intro tok ncc c4 d hd
    rw [load_and_tokenize] at hd
    have := List.mem_filter.mp hd
    simpa using this.2

/-- Witness for C3: the first scenario document is a member of the ingest's
output and is non-empty. -/
theorem ingest_document_boundaries_witness :
    0 < ([[0, 1]] : Doc).length :=
  ingest_document_boundaries.2.2.2.1 wordTok
    ["hello world", "", "foo", "bar", ""] [] [[0, 1]] (by decide)

/-- C10: the current-document accumulator is not reset at the boundary between
the two corpus files: ingesting the NCC file then the C4 file with the shared
accumulator equals ingesting their concatenation, and a run of non-blank
token-bearing lines ending one file and starting the next all lands in the one
current document; concretely, "hello" ending file one and "world" starting
file two form the single document [[tok hello], [tok world]]. -/
theorem ingest_no_reset_across_files :
    (∀ (tok : String → List Nat) (l1 l2 : List String),
        load_and_tokenize tok l1 l2 = load_and_tokenize tok (l1 ++ l2) [])
    ∧ (∀ (tok : String → List Nat) (docs : List Doc) (s1 p1 : List String),
        (∀ x ∈ s1 ++ p1, pyStrip x ≠ "" ∧ 0 < (tok (pyStrip x)).length) →
        ingestFold tok (ingestFold tok docs s1) p1
          = appendRun docs ((s1 ++ p1).map (fun x => tok (pyStrip x))))
    ∧ load_and_tokenize wordTok ["hello"] ["world"] = [[[0], [1]]] := by
  refine ⟨?_, ?_, by decide⟩
  · intro tok l1 l2
    simp only [load_and_tokenize, ingestFold, List.foldl_append,
      List.foldl_nil]
  · intro tok docs s1 p1 hx
    rw [show ingestFold tok (ingestFold tok docs s1) p1
          = ingestFold tok docs (s1 ++ p1) by
        simp only [ingestFold, List.foldl_append]]
    exact ingestFold_all_nonblank tok (s1 ++ p1) docs hx

/-- Witness for C10: the cross-file run ["hello"], ["world"] extends the one
current document with both token arrays. -/
theorem ingest_no_reset_across_files_witness :
    ingestFold wordTok (ingestFold wordTok [[]] ["hello"]) ["world"]
      = appendRun [[]] ((["hello"] ++ ["world"]).map
          (fun x => wordTok (pyStrip x))) :=
  ingest_no_reset_across_files.2.1 wordTok [[]] ["hello"] ["world"] (by decide)

theorem foldl_min_le_init (xs : List Nat) :
    ∀ (x : Nat), xs.foldl min x ≤ x := by
  induction xs with
  | nil => intro x; exact Nat.le_refl x
  | cons a as ih =>
    intro x
    calc (a :: as).foldl min x = as.foldl min (min x a) := rfl
      _ ≤ min x a := ih (min x a)
      _ ≤ x := Nat.min_le_left _ _

theorem foldl_min_le_mem (xs : List Nat) :
    ∀ (x y : Nat), y ∈ xs → xs.foldl min x ≤ y := by
  induction xs with
  | nil => intro x y hy; cases hy
  | cons a as ih =>
    intro x y hy
    rcases List.mem_cons.mp hy with h | h
    · calc (a :: as).foldl min x = as.foldl min (min x a) := rfl
        _ ≤ min x a := foldl_min_le_init as (min x a)
        _ ≤ a := Nat.min_le_right _ _
        _ = y := h.symm
    · exact ih (min x a) y h

theorem allReduceMin_le (xs : List Nat) (y : Nat) (hy : y ∈ xs) :
    allReduceMin xs ≤ y := by
  match xs, hy with
  | x :: rest, hy =>
    rcases List.mem_cons.mp hy with h | h
    · rw [h]; exact foldl_min_le_init rest x
    · exact foldl_min_le_mem rest x y h

/-- C2 fails as stated: with batch size 1, three ranks whose shards yield
120, 115 and 130 full batches agree on epoch length 7 — the minimum of the
per-rank `batches // 16` contributions (train.py line 285 divides by 16 before
the MIN all-reduce) — not on 115, the minimum of the batch counts. -/
theorem agree_on_epoch_length_not_min_batches :
    agree_on_epoch_length [120, 115, 130] 1 = 7
    ∧ allReduceMin ([120, 115, 130].map (fun L => localBatches L 1)) = 115
    ∧ (7 : Nat) ≠ 115 := by
  decide

/-- C2 amended: `agree_on_epoch_length` returns, on every rank, the global
minimum of the per-rank contributions `full batches // 16` (not of the batch
counts themselves); the result is still ≤ every rank's locally reported count
of full batches, and on locally reported counts {120, 115, 130} it returns 7
on all ranks. -/
theorem agree_on_epoch_length_min_contributions (lens : List Nat) (bs : Nat)
    (h : lens ≠ []) :
    agree_on_epoch_length lens bs
      = allReduceMin (lens.map (fun L => localBatches L bs / 16))
    ∧ (∀ L ∈ lens, agree_on_epoch_length lens bs ≤ localBatches L bs)
    ∧ agree_on_epoch_length [120, 115, 130] 1 = 7 := by
  refine ⟨rfl, ?_, by decide⟩
  intro L hL
  have hmem : contributedLength L bs ∈ lens.map (fun x => contributedLength x bs) :=
    List.mem_map_of_mem _ hL
  calc agree_on_epoch_length lens bs ≤ contributedLength L bs :=
        allReduceMin_le _ _ hmem
    _ ≤ localBatches L bs := Nat.div_le_self _ _

/-- Witness for C2's amended statement at the spec's concrete scenario. -/
theorem agree_on_epoch_length_min_contributions_witness :
    agree_on_epoch_length [120, 115, 130] 1 ≤ localBatches 115 1 :=
  (agree_on_epoch_length_min_contributions [120, 115, 130] 1
    (by decide)).2.1 115 (by decide)

/-- C7: the shuffling seed for rank r in epoch e equals
`base + r + e * world_size`, and for ranks below the world size distinct
(rank, epoch) pairs always receive distinct seeds, so shuffling is
reproducible yet decorrelated across ranks and epochs. -/
theorem shuffle_seed_formula (s r1 e1 r2 e2 w : Nat)
    (h1 : r1 < w) (h2 : r2 < w) :
    shuffleSeed s r1 e1 w = s + r1 + e1 * w
    ∧ (shuffleSeed s r1 e1 w = shuffleSeed s r2 e2 w ↔ r1 = r2 ∧ e1 = e2) := by
  refine ⟨rfl, ?_, ?_⟩
  · intro heq
    rw [shuffleSeed, shuffleSeed] at heq
    have hsum : r1 + e1 * w = r2 + e2 * w := by omega
    have hr : r1 = r2 := by
      have m1 := Nat.add_mul_mod_self_right r1 e1 w
      have m2 := Nat.add_mul_mod_self_right r2 e2 w
      rw [Nat.mod_eq_of_lt h1] at m1
      rw [Nat.mod_eq_of_lt h2] at m2
      rw [← m1, ← m2, hsum]
    subst hr
    have he : e1 * w = e2 * w := by omega
    exact ⟨rfl, Nat.eq_of_mul_eq_mul_right (by omega) he⟩
  · rintro ⟨rfl, rfl⟩
    rfl

/-- Witness for C7 at base seed 42, ranks 0 and 1, epochs 3 and 3, world 2. -/
theorem shuffle_seed_formula_witness :
    shuffleSeed 42 0 3 2 = 42 + 0 + 3 * 2 :=
  (shuffle_seed_formula 42 0 3 1 3 2 (by decide) (by decide)).1

/-- C9: the local device index `rank - gpus_per_node * (rank // gpus_per_node)`
computed in `setup_training` equals `rank mod gpus_per_node` whenever the
devices-per-node count is positive. -/
theorem local_rank_eq_mod (r d : Nat) (h : 0 < d) :
    local_rank r d = r % d := by
  have hmd := Nat.mod_add_div r d
  rw [local_rank]
  omega

/-- Witness for C9 at rank 7 with 3 devices per node. -/
theorem local_rank_eq_mod_witness : local_rank 7 3 = 7 % 3 :=
  local_rank_eq_mod 7 3 (by decide)

theorem append_tmp_ne (s : String) : s ++ "_tmp" ≠ s := by
  intro h
  have hlen := congrArg String.length h
  rw [String.length_append] at hlen
  have h4 : "_tmp".length = 4 := rfl
  omega

/-- C4: the checkpoint publish protocol of `save`: when a checkpoint exists at
the fixed path, it is renamed aside to `path + "_tmp"` before the new write,
so in the intermediate state (a crash point) and after the completed write the
aside copy still holds the previous checkpoint unchanged — and resuming from
it yields the valid state (saved epoch + 1, saved step); only the designated
process, rank 0, modifies the filesystem at all. -/
theorem checkpoint_rename_aside_crash_safe {α : Type} (fs : FsState α)
    (path : String) (c0 cNew : Checkpoint α) (h : fs path = some c0) :
    (renameAside fs path) (path ++ "_tmp") = some c0
    ∧ (∀ fresh, resumeFrom fresh c0
        = (c0.epoch + 1, c0.global_step, dictUpdate fresh c0.cfgArgs))
    ∧ (saveCheckpoint 0 fs path cNew) (path ++ "_tmp") = some c0
    ∧ (saveCheckpoint 0 fs path cNew) path = some cNew
    ∧ (∀ rank, rank ≠ 0 → saveCheckpoint rank fs path cNew = fs) := by
  have hren : (renameAside fs path) (path ++ "_tmp") = some c0 := by
    rw [renameAside, h]
    show (if path ++ "_tmp" = path ++ "_tmp" then some c0
      else if path ++ "_tmp" = path then none else fs (path ++ "_tmp")) = some c0
    rw [if_pos rfl]
  refine ⟨hren, fun fresh => rfl, ?_, ?_, ?_⟩
  · rw [saveCheckpoint, show is_main_process 0 = true from rfl, if_pos rfl,
      writeCheckpoint]
    rw [if_neg (append_tmp_ne path)]
    exact hren
  · rw [saveCheckpoint, show is_main_process 0 = true from rfl, if_pos rfl,
      writeCheckpoint]
    rw [if_pos rfl]
  · intro rank hrank
    rw [saveCheckpoint, is_main_process, if_neg]
    simp [hrank]

/-- Witness for C4 at a concrete run directory holding one old checkpoint. -/
theorem checkpoint_rename_aside_crash_safe_witness :
    (renameAside
        (fun p => if p = "ckpt/model.bin"
          then some (⟨3, 1000, []⟩ : Checkpoint Nat) else none)
        "ckpt/model.bin") ("ckpt/model.bin" ++ "_tmp")
      = some (⟨3, 1000, []⟩ : Checkpoint Nat) :=
  (checkpoint_rename_aside_crash_safe
    (fun p => if p = "ckpt/model.bin"
      then some (⟨3, 1000, []⟩ : Checkpoint Nat) else none)
    "ckpt/model.bin" ⟨3, 1000, []⟩ ⟨4, 2000, []⟩ (by simp)).1

theorem lookupA_cons {α : Type} (p : String × α) (rest : List (String × α))
    (key : String) :
    lookupA (p :: rest) key
      = if key = p.1 then some p.2 else lookupA rest key := by
  obtain ⟨k, v⟩ := p
  rfl

theorem lookupA_eq_none_of_not_mem {α : Type} (d : List (String × α))
    (key : String) (h : key ∉ d.map Prod.fst) : lookupA d key = none := by
  induction d with
  | nil => rfl
  | cons p rest ih =>
    rw [lookupA_cons]
    simp only [List.map_cons, List.mem_cons] at h
    push_neg at h
    rw [if_neg h.1]
    exact ih h.2

theorem contains_iff_lookupA {α : Type} (d : List (String × α)) (key : String) :
    (d.map Prod.fst).contains key = true ↔ (lookupA d key).isSome := by
  induction d with
  | nil => simp [lookupA]
  | cons p rest ih =>
    rw [List.map_cons, List.contains_cons, lookupA_cons]
    by_cases hk : key = p.1
    · simp [hk]
    · have hbeq : (key == p.1) = false := by
        exact beq_eq_false_iff_ne.mpr hk
      rw [if_neg hk, hbeq, Bool.false_or]
      exact ih

theorem lookupA_map_replace {α : Type} (kv : String × α) (key : String) :
    ∀ (d : List (String × α)),
      lookupA (d.map (fun p => if p.1 = kv.1 then kv else p)) key
        = if key = kv.1 then (lookupA d key).map (fun _ => kv.2)
          else lookupA d key := by
  intro d
  induction d with
  | nil => by_cases hk : key = kv.1 <;> simp [hk, lookupA]
  | cons p rest ih =>
    rw [List.map_cons, lookupA_cons, lookupA_cons]
    by_cases hp : p.1 = kv.1
    · rw [if_pos hp]
      by_cases hk : key = p.1
      · have hkkv : key = kv.1 := hk.trans hp
        rw [if_pos hkkv, if_pos hk, if_pos hkkv]
        simp
      · have hkkv : ¬ key = kv.1 := fun hx => hk (hx.trans hp.symm)
        rw [if_neg hkkv, if_neg hk, ih, if_neg hkkv]
    · rw [if_neg hp]
      by_cases hk : key = p.1
      · have hkkv : ¬ key = kv.1 := fun hx => hp (hk.symm.trans hx)
        rw [if_pos hk, if_pos hk, if_neg hkkv]
      · rw [if_neg hk, if_neg hk, ih]

theorem lookupA_append_single {α : Type} (d : List (String × α))
    (kv : String × α) (key : String) :
    lookupA (d ++ [kv]) key
      = match lookupA d key with
        | some v => some v
        | none => if key = kv.1 then some kv.2 else none := by
  induction d with
  | nil =>
    rw [List.nil_append, lookupA_cons]
    by_cases hk : key = kv.1 <;> simp [hk, lookupA]
  | cons p rest ih =>
    rw [List.cons_append, lookupA_cons, lookupA_cons]
    by_cases hk : key = p.1
    · rw [if_pos hk, if_pos hk]
    · rw [if_neg hk, if_neg hk, ih]

theorem lookupA_updateOne {α : Type} (d : List (String × α))
    (kv : String × α) (key : String) :
    lookupA (updateOne d kv) key
      = if key = kv.1 then some kv.2 else lookupA d key := by
  rw [updateOne]
  by_cases hc : ((d.map Prod.fst).contains kv.1) = true
  · rw [if_pos hc, lookupA_map_replace]
    by_cases hk : key = kv.1
    · rw [if_pos hk, if_pos hk, hk]
      have hsome : (lookupA d kv.1).isSome := (contains_iff_lookupA d kv.1).mp hc
      cases hval : lookupA d kv.1 with
      | none => rw [hval] at hsome; exact Bool.noConfusion hsome
      | some v => rfl
    · rw [if_neg hk, if_neg hk]
  · rw [if_neg hc, lookupA_append_single]
    cases hval : lookupA d key with
    | some v =>
      have hk : ¬ key = kv.1 := by
        intro hkk
        apply hc
        rw [contains_iff_lookupA, ← hkk, hval]
        rfl
      rw [if_neg hk, if_neg hk]
    | none => rfl

theorem lookupA_dictUpdate {α : Type} :
    ∀ (upd base : List (String × α)) (key : String),
      (upd.map Prod.fst).Nodup →
      lookupA (dictUpdate base upd) key
        = match lookupA upd key with
          | some v => some v
          | none => lookupA base key := by
  intro upd
  induction upd with
  | nil => intro base key _; rfl
  | cons kv rest ih =>
    intro base key hnd
    rw [List.map_cons, List.nodup_cons] at hnd
    have step : dictUpdate base (kv :: rest)
        = dictUpdate (updateOne base kv) rest := rfl
    rw [step, ih (updateOne base kv) key hnd.2, lookupA_cons]
    by_cases hk : key = kv.1
    · rw [if_pos hk, hk]
      have hnone : lookupA rest kv.1 = none :=
        lookupA_eq_none_of_not_mem rest kv.1 hnd.1
      rw [hnone, lookupA_updateOne, if_pos rfl]
    · rw [if_neg hk]
      cases hval : lookupA rest key with
      | none =>
        rw [lookupA_updateOne, if_neg hk]
      | some v => rfl

/-- C5: resuming from a checkpoint sets the initial epoch counter to the
saved epoch plus one and the global step to the saved value, and resolves the
configuration so that every field present in the checkpoint's saved
configuration overrides the freshly parsed value, while fields absent from
the checkpoint fall back to the freshly parsed configuration. -/
theorem resume_sets_counters_and_config {α : Type}
    (fresh : List (String × α)) (ck : Checkpoint α)
    (h : (ck.cfgArgs.map Prod.fst).Nodup) :
    (resumeFrom fresh ck).1 = ck.epoch + 1
    ∧ (resumeFrom fresh ck).2.1 = ck.global_step
    ∧ (∀ key, lookupA (resumeFrom fresh ck).2.2 key
        = match lookupA ck.cfgArgs key with
          | some v => some v
          | none => lookupA fresh key) := by
  refine ⟨rfl, rfl, ?_⟩
  intro key
  exact lookupA_dictUpdate ck.cfgArgs fresh key h

/-- Witness for C5: a checkpoint value for "lr" overrides the fresh one,
resolved at a concrete configuration. -/
theorem resume_sets_counters_and_config_witness :
    lookupA (resumeFrom [("lr", 1), ("bs", 2)]
      (⟨5, 900, [("lr", 9)]⟩ : Checkpoint Nat)).2.2 "lr"
      = match lookupA [("lr", 9)] "lr" with
        | some v => some v
        | none => lookupA [("lr", 1), ("bs", 2)] "lr" :=
  (resume_sets_counters_and_config [("lr", 1), ("bs", 2)]
    ⟨5, 900, [("lr", 9)]⟩ (by decide)).2.2 "lr"

/-- C6 fails as stated: `Processor.save` writes each artifact directly at its
final output path. With rank 0, the path template "out{n}" and a single
document, the very first filesystem event of the save opens final path "out0"
itself, after which "out0" is visible holding a truncated artifact that
differs from its complete contents — no temp-then-rename discipline exists. -/
theorem shard_writer_not_atomic :
    (processorSaveOps 0 (fun n => "out" ++ Nat.repr n) [[[1]]]).take 1
        = [ShardFsOp.openTrunc "out0"]
    ∧ applyShardOps emptyShardFs
        ((processorSaveOps 0 (fun n => "out" ++ Nat.repr n) [[[1]]]).take 1)
        "out0" = some []
    ∧ pySlice ([[[1]]] : List Doc) 0 8 = [[[1]]]
    ∧ some ([] : List Doc) ≠ some [[[1]]] := by
  refine ⟨by decide, by decide, by simp [pySlice, everyNth], by decide⟩

/-- C6 amended: the Shard Writer's publish discipline is a direct write at
the final path: every filesystem event of `Processor.save` targets one of the
eight final artifact paths (no temporary path, no rename), and after the
opening event of artifact 0 — before its dump completes — the final path
already holds a visible, incomplete truncated artifact. -/
theorem shard_writer_direct_final_path_write (rank : Nat)
    (tmpl : Nat → String) (docs : List Doc) (h : docs ≠ []) :
    (∀ op ∈ processorSaveOps rank tmpl docs,
        ∃ i, i < 8 ∧ pathOfOp op = tmpl (rank * 8 + i))
    ∧ applyShardOps emptyShardFs
        ((processorSaveOps rank tmpl docs).take 1) (tmpl (rank * 8))
        = some []
    ∧ pySlice docs 0 8 ≠ [] := by
  refine ⟨?_, ?_, ?_⟩
  · intro op hop
    rw [processorSaveOps, List.mem_flatten] at hop
    obtain ⟨s, hs, hop⟩ := hop
    rw [List.mem_map] at hs
    obtain ⟨i, hi, rfl⟩ := hs
    rw [List.mem_range] at hi
    refine ⟨i, hi, ?_⟩
    simp only [List.mem_cons, List.mem_singleton, List.not_mem_nil,
      or_false] at hop
    rcases hop with rfl | rfl <;> rfl
  · show (if tmpl (rank * 8 + 0) = tmpl (rank * 8 + 0) then some []
      else emptyShardFs (tmpl (rank * 8 + 0))) = some []
    rw [if_pos rfl]
  · match docs, h with
    | d :: ds, _ =>
      rw [pySlice, List.drop_zero, everyNth]
      exact List.cons_ne_nil _ _

/-- Witness for C6's amended statement at a concrete save. -/
theorem shard_writer_direct_final_path_write_witness :
    applyShardOps emptyShardFs
      ((processorSaveOps 0 (fun n => "out" ++ Nat.repr n) [[[1]]]).take 1)
      ((fun n => "out" ++ Nat.repr n) (0 * 8)) = some [] :=
  (shard_writer_direct_final_path_write 0 (fun n => "out" ++ Nat.repr n)
    [[[1]]] (by decide)).2.1

theorem runSteps_count (M m : Nat) :
    ∀ (b ls g : Nat), g < M → ls < m → min (M - g) (m - ls) ≤ b →
      runSteps M m b ls g = g + min (M - g) (m - ls) := by
  intro b
  induction b with
  | zero =>
    intro ls g hg hls hmin
    show g = g + min (M - g) (m - ls)
    omega
  | succ b ih =>
    intro ls g hg hls hmin
    simp only [runSteps]
    by_cases hcond : M ≤ g + 1 ∨ (m : Int) - 1 ≤ (ls : Int)
    · rw [if_pos hcond]
      have hone : min (M - g) (m - ls) = 1 := by omega
      omega
    · rw [if_neg hcond]
      push_neg at hcond
      have h1 : g + 1 < M := by omega
      have h2 : ls + 1 < m := by
        have := hcond.2
        omega
      have h3 : min (M - (g + 1)) (m - (ls + 1)) ≤ b := by omega
      rw [ih (ls + 1) (g + 1) h1 h2 h3]
      omega

/-- C8 fails as stated when the agreed epoch budget is 0: starting at step 0
with capacity 10 and 5 available batches, the loop still executes one
optimizer step (the Python exit test `local_step >= max_local_steps - 1`
compares 0 ≥ -1 at the first batch), so the epoch runs 1 step, not
min(10 − 0, 0) = 0. -/
theorem training_epoch_zero_budget_one_step :
    training_epoch 0 10 0 5 = 1 ∧ min (10 - 0) 0 = 0 ∧ (1 : Nat) ≠ 0 := by
  refine ⟨by decide, by decide, by decide⟩

/-- C8 amended: whenever the agreed epoch budget is at least 1 (and the shard
supplies at least the required batches), a training epoch advances the global
step by exactly min(global max steps − steps so far, epoch budget); after
each epoch the driver records a checkpoint, and when the driver terminates
its final global step has reached the configured maximum, with the last
checkpoint taken at that final step. -/
theorem epoch_and_driver_step_accounting :
    (∀ g M m B, g < M → 1 ≤ m → min (M - g) m ≤ B →
        training_epoch g M m B = g + min (M - g) m)
    ∧ (∀ (M : Nat) (budget batches : Nat → Nat) (fuel epoch g : Nat)
        (ckpts : List (Nat × Nat)) (gfin : Nat) (trace : List (Nat × Nat)),
        driverLoop M budget batches fuel epoch g ckpts = some (gfin, trace) →
        M ≤ gfin ∧ (∃ e, trace.getLast? = some (gfin, e))) := by
  constructor
  · intro g M m B hg hm hB
    rw [training_epoch, runSteps_count M m B 0 g hg (by omega) (by omega)]
    omega
  · intro M budget batches fuel
    induction fuel with
    | zero =>
      intro epoch g ckpts gfin trace hrun
      exact absurd hrun (by simp [driverLoop])
    | succ fuel ih =>
      intro epoch g ckpts gfin trace hrun
      simp only [driverLoop] at hrun
      by_cases hstop : M ≤ training_epoch g M (budget epoch) (batches epoch)
      · rw [if_pos hstop] at hrun
        rw [Option.some.injEq, Prod.mk.injEq] at hrun
        obtain ⟨h1, h2⟩ := hrun
        subst h1
        subst h2
        exact ⟨hstop, epoch, List.getLast?_concat _⟩
      · rw [if_neg hstop] at hrun
        exact ih _ _ _ _ _ hrun

/-- Witness for C8's amended statement: an epoch with budget 3 from step 0 of
10 runs exactly 3 steps, and a concrete driver run terminates at step 10 with
its last checkpoint at step 10. -/
theorem epoch_and_driver_step_accounting_witness :
    training_epoch 0 10 3 5 = 0 + min (10 - 0) 3
    ∧ (10 ≤ 10 ∧ ∃ e,
        ([(3, 0), (6, 1), (9, 2), (10, 3)] : List (Nat × Nat)).getLast?
          = some (10, e)) :=
  ⟨epoch_and_driver_step_accounting.1 0 10 3 5 (by decide) (by decide)
      (by decide),
    epoch_and_driver_step_accounting.2 10 (fun _ => 3) (fun _ => 5) 4 0 0 []
      10 [(3, 0), (6, 1), (9, 2), (10, 3)] (by decide)⟩
